import Mathlib

/-!
Verification of the structural JSON decoding/encoding engine of the commit-gen
repository (src/common/json.py, src/common/result.py, src/common/reflection.py).

The Python code is shallowly embedded: JSON runtime values, decoded values and
target type descriptors become inductive types, the Result substrate becomes a
two-constructor inductive, and raised Python exceptions become the error channel
of an outer Except layer while expected data-dependent failures travel in the
inner Result layer, exactly as in the source.

Modelling notes, stated once here:
- Python booleans are a subclass of int, so isinstance(b, int) is true for a
  bool.  JSON.isInstInt reflects this.
- Floats are never computed with by the engine (only isinstance checks and
  pass-through), so a float is carried as its repr string.
- The f-string interpolation of an unevaluated map object in parse_one_of
  renders the repr of the map object; its memory address is nondeterministic
  and is elided in the constant mapObjectRepr.
- The stdlib Decimal constructor is modelled for plain literals
  (sign, digits, optional fractional part); exponent and special forms are
  outside the fragment the claims exercise.  Decimal(s) raising
  decimal.InvalidOperation on a malformed literal is modelled as a thrown
  error, exactly as the uncaught Python exception.
- try_concrete_type_hints never fails for the post-resolution type
  descriptors used here (proved on the reflection model for claim C6), so the
  corresponding error branch of class_parser is not modelled.
- pydantic construction (cls(**args)) is modelled by mkCls: missing required
  fields and extra arguments produce ValidationError messages joined by ". ";
  strict type re-validation is not re-modelled because the decoder only hands
  well-typed values to the constructor on the paths exercised here.
-/

namespace CG

/-- Result substrate from src/common/result.py.  The Python class wraps an
inner Ok/Err value; the wrapper carries nothing else, so the two layers are
flattened into one inductive. -/
inductive Result (ε α : Type) : Type where
  | ok (value : α) : Result ε α
  | err (error : ε) : Result ε α
deriving DecidableEq

namespace Result

/-- Result.map: transforms a success, passes an error through. -/
def map {ε α β : Type} (f : α → β) : Result ε α → Result ε β
  | .ok v => .ok (f v)
  | .err e => .err e

/-- Result.map_err: transforms an error, passes a success through. -/
def mapErr {ε η α : Type} (f : ε → η) : Result ε α → Result η α
  | .ok v => .ok v
  | .err e => .err (f e)

/-- Result.is_ok. -/
def isOk {ε α : Type} : Result ε α → Bool
  | .ok _ => true
  | .err _ => false

end Result

/- JSON runtime values (the JSONObject union of json.py), as Python sees
them at runtime: strings, booleans, integers, floats, None, lists and dicts
with string keys. -/
mutual
inductive JSON : Type where
  | jstr (s : String)
  | jbool (b : Bool)
  | jint (n : Int)
  | jfloat (r : String)
  | jnull
  | jarr (xs : JSONList)
  | jobj (entries : JSONEntries)
deriving DecidableEq

inductive JSONList : Type where
  | nil
  | cons (hd : JSON) (tl : JSONList)
deriving DecidableEq

inductive JSONEntries : Type where
  | nil
  | cons (key : String) (val : JSON) (tl : JSONEntries)
deriving DecidableEq
end

/- Decoded Python values: primitives, Decimal, containers, and constructed
record instances (pydantic objects tagged with their class name). -/
mutual
inductive Value : Type where
  | vstr (s : String)
  | vbool (b : Bool)
  | vint (n : Int)
  | vfloat (r : String)
  | vnone
  | vdecimal (s : String)
  | vlist (xs : ValueList)
  | vset (xs : ValueList)
  | vdict (entries : ValueEntries)
  | vobj (name : String) (fields : ObjFields)
deriving DecidableEq

inductive ValueList : Type where
  | nil
  | cons (hd : Value) (tl : ValueList)
deriving DecidableEq

inductive ValueEntries : Type where
  | cnil
  | ccons (k : Value) (v : Value) (tl : ValueEntries)
deriving DecidableEq

inductive ObjFields : Type where
  | fnil
  | fcons (name : String) (v : Value) (tl : ObjFields)
deriving DecidableEq
end

/- Target type descriptors: the type expressions the dispatch table of
parser_for handles.  A record class carries its declared fields in order,
each with its (already resolved) type and its constructor default if one is
declared.  unsupported stands for a requested type matched by no dispatch
rule. -/
mutual
inductive Ty : Type where
  | any
  | strT
  | boolT
  | floatT
  | intT
  | noneT
  | decimalT
  | listT (e : Ty)
  | setT (e : Ty)
  | dictT (k v : Ty)
  | unionT (args : TyList)
  | clsT (name : String) (fields : Fields)
  | unsupported (name : String)
deriving DecidableEq

inductive TyList : Type where
  | nil
  | cons (hd : Ty) (tl : TyList)
deriving DecidableEq

inductive Fields : Type where
  | nil
  | cons (name : String) (ty : Ty) (dflt : Option Value) (tl : Fields)
deriving DecidableEq
end

/-- ParsingOptions from json.py: one recognized option. -/
structure ParsingOptions : Type where
  fill_missing_optionals : Bool
deriving DecidableEq

/-- type(json).__name__ for a JSON runtime value. -/
def JSON.typeName : JSON → String
  | .jstr _ => "str"
  | .jbool _ => "bool"
  | .jint _ => "int"
  | .jfloat _ => "float"
  | .jnull => "NoneType"
  | .jarr _ => "list"
  | .jobj _ => "dict"

/-- isinstance(json, str). -/
def JSON.isInstStr : JSON → Bool
  | .jstr _ => true
  | _ => false

/-- isinstance(json, bool). -/
def JSON.isInstBool : JSON → Bool
  | .jbool _ => true
  | _ => false

/-- isinstance(json, float).  A Python int is not an instance of float. -/
def JSON.isInstFloat : JSON → Bool
  | .jfloat _ => true
  | _ => false

/-- isinstance(json, int).  Python bool is a subclass of int, so a boolean
is an instance of int. -/
def JSON.isInstInt : JSON → Bool
  | .jint _ => true
  | .jbool _ => true
  | _ => false

/-- isinstance(json, type(None)). -/
def JSON.isInstNone : JSON → Bool
  | .jnull => true
  | _ => false

/-- isinstance(json, dict). -/
def JSON.isInstDict : JSON → Bool
  | .jobj _ => true
  | _ => false

/- The identity embedding of a JSON runtime value into the value world:
parser results that return the incoming json unchanged (parse_any and the
primitive parsers) produce exactly this. -/
mutual
def JSON.toValue : JSON → Value
  | .jstr s => .vstr s
  | .jbool b => .vbool b
  | .jint n => .vint n
  | .jfloat r => .vfloat r
  | .jnull => .vnone
  | .jarr xs => .vlist xs.toValues
  | .jobj es => .vdict es.toValueEntries

def JSONList.toValues : JSONList → ValueList
  | .nil => .nil
  | .cons hd tl => .cons hd.toValue tl.toValues

def JSONEntries.toValueEntries : JSONEntries → ValueEntries
  | .nil => .cnil
  | .cons k v tl => .ccons (.vstr k) v.toValue tl.toValueEntries
end

/- json.dumps with the default separators, as used in the error messages of
class_parser and parse_one_of.  String escaping beyond the plain characters
the claims exercise is not modelled. -/
mutual
def dumps : JSON → String
  | .jstr s => "\"" ++ s ++ "\""
  | .jbool b => if b then "true" else "false"
  | .jint n => toString n
  | .jfloat r => r
  | .jnull => "null"
  | .jarr xs => "[" ++ dumpsList xs ++ "]"
  | .jobj es => "\x7b" ++ dumpsEntries es ++ "\x7d"

def dumpsList : JSONList → String
  | .nil => ""
  | .cons hd .nil => dumps hd
  | .cons hd tl => dumps hd ++ ", " ++ dumpsList tl

def dumpsEntries : JSONEntries → String
  | .nil => ""
  | .cons k v .nil => "\"" ++ k ++ "\": " ++ dumps v
  | .cons k v tl => "\"" ++ k ++ "\": " ++ dumps v ++ ", " ++ dumpsEntries tl
end

/-- Dict lookup json[field] and membership (field in json) on a JSON mapping. -/
def lookupEntry (f : String) : JSONEntries → Option JSON
  | .nil => none
  | .cons k v tl => if f = k then some v else lookupEntry f tl

/-- Whether NoneType occurs among the arguments of a union. -/
def TyList.containsNone : TyList → Bool
  | .nil => false
  | .cons .noneT _ => true
  | .cons _ tl => tl.containsNone

/-- is_optional from json.py: the type is a Union with NoneType among its
arguments. -/
def Ty.isOptionalT : Ty → Bool
  | .unionT args => args.containsNone
  | _ => false

/-- Membership of a value in a value list, used by the set model. -/
def ValueList.hasMember : ValueList → Value → Bool
  | .nil, _ => false
  | .cons hd tl, v => if v = hd then true else tl.hasMember v

/-- Appending one element to a value list. -/
def ValueList.push : ValueList → Value → ValueList
  | .nil, v => .cons v .nil
  | .cons hd tl, v => .cons hd (tl.push v)

/-- First-occurrence deduplication: the model of the Python set(...) applied
to a decoded list by parse_set.  A Python set is unordered; insertion order
is used as the canonical representative. -/
def pySetGo : ValueList → ValueList → ValueList
  | _, .nil => .nil
  | seen, .cons hd tl =>
    if seen.hasMember hd then pySetGo seen tl
    else .cons hd (pySetGo (seen.push hd) tl)

/-- The Python set constructor on a list of decoded values. -/
def pySet (xs : ValueList) : ValueList := pySetGo .nil xs

/-- All elements of the list are pairwise distinct. -/
def distinctB : ValueList → Bool
  | .nil => true
  | .cons hd tl => !(tl.hasMember hd) && distinctB tl

/-- Splits the digit body of a plain decimal literal into integer and
fraction digits; none when the body is not of that shape. -/
def decSplitDigits (cs : List Char) : Option (List Char × List Char) :=
  let intPart := cs.takeWhile Char.isDigit
  match cs.dropWhile Char.isDigit with
  | [] => some (intPart, [])
  | '.' :: frac => if frac.all Char.isDigit then some (intPart, frac) else none
  | _ => none

/-- Model of s maps-to str(Decimal(s)) for plain decimal literals: an
optional sign, digits, optionally a dot and fraction digits, at least one
digit overall.  Returns none when the stdlib constructor would raise
decimal.InvalidOperation.  Leading zeros of the integer part are dropped and
a bare leading or trailing dot is normalized, as str(Decimal(...)) does. -/
def decCanon (s : String) : Option String :=
  let body := s.toList
  let signAndBody : Bool × List Char :=
    match body with
    | '-' :: r => (true, r)
    | '+' :: r => (false, r)
    | r => (false, r)
  match decSplitDigits signAndBody.2 with
  | none => none
  | some (i, f) =>
    if i.isEmpty && f.isEmpty then none
    else
      let iC := match i.dropWhile (· == '0') with
        | [] => ['0']
        | r => r
      some ((if signAndBody.1 then "-" else "") ++ String.mk iC ++
        (if f.isEmpty then "" else "." ++ String.mk f))

/-- The repr a Python f-string renders for an unevaluated map object, with
the nondeterministic memory address elided. -/
def mapObjectRepr : String := "<map object at 0x...>"

/-- The shorthand for decode outcomes: the inner, expected error channel. -/
abbrev Res := Result String Value

/- The eager part of parser_for: what the Python function evaluates at
parser-construction time.  Dispatch falling through every rule raises the
fatal unsupported-type ValueError; a union constructs every branch parser
eagerly, while list, set, dict and record parsers defer the parsers of their
component types into the returned closure. -/
mutual
def construct : Ty → Except String Unit
  | .any => .ok ()
  | .strT => .ok ()
  | .boolT => .ok ()
  | .floatT => .ok ()
  | .intT => .ok ()
  | .noneT => .ok ()
  | .decimalT => .ok ()
  | .listT _ => .ok ()
  | .setT _ => .ok ()
  | .dictT _ _ => .ok ()
  | .unionT args => constructBranches args
  | .clsT _ _ => .ok ()
  | .unsupported n => .error ("No JSON parser available for " ++ n)

def constructBranches : TyList → Except String Unit
  | .nil => .ok ()
  | .cons a tl => do
    let _ ← construct a
    constructBranches tl
end

/-- The element loop of parse_list: Result.traverse over enumerate(json).
For each element the deferred parser_for(element_ty) runs first (it may
raise, modelled by the Except layer), then the element parser; an element
failure gets the index folded in and the first failing index wins. -/
def listTraverse (ce : Except String Unit) (p : JSON → Except String Res) :
    Nat → JSONList → Except String (Result String ValueList)
  | _, .nil => .ok (.ok .nil)
  | i, .cons hd tl =>
    match ce with
    | .error m => .error m
    | .ok () => do
      let r ← p hd
      match r with
      | .err e => .ok (.err ("At index " ++ toString i ++ ": " ++ e))
      | .ok v => do
        let rest ← listTraverse ce p (i + 1) tl
        match rest with
        | .err e => .ok (.err e)
        | .ok vs => .ok (.ok (.cons v vs))

/-- The entry loop of parse_dict.  Python evaluates the key parse and then
the value parse before inspecting either outcome, so a raise from either
happens even when the other is a data error; a key failure is then reported
before a value failure. -/
def dictTraverse (pk pv : JSON → Except String Res) :
    JSONEntries → Except String (Result String ValueEntries)
  | .nil => .ok (.ok .cnil)
  | .cons key val tl => do
    let kr ← pk (.jstr key)
    let vr ← pv val
    match kr with
    | .err e => .ok (.err ("Parsing key name " ++ key ++ ": " ++ e))
    | .ok kv =>
      match vr with
      | .err e => .ok (.err ("Parsing key " ++ key ++ ": " ++ e))
      | .ok vv => do
        let rest ← dictTraverse pk pv tl
        match rest with
        | .err e => .ok (.err e)
        | .ok entries => .ok (.ok (.ccons kv vv entries))

/-- The success values among the branch outcomes of parse_one_of. -/
def successesOf (rs : List Res) : List Value :=
  rs.filterMap fun r => match r with | .ok v => some v | .err _ => none

/-- The failure messages among the branch outcomes of parse_one_of. -/
def failuresOf (rs : List Res) : List String :=
  rs.filterMap fun r => match r with | .ok _ => none | .err e => some e

/-- The outcome selection of parse_one_of, given the per-branch results:
zero successes aggregates every branch failure under a No parse header; one
success wins; several successes yield the ambiguous-parse error, whose
f-string interpolates the unevaluated map object rather than the joined
interpretation strings. -/
def parseOneOf (rs : List Res) (j : JSON) : Res :=
  match successesOf rs with
  | [] => .err ("No parse.\n" ++ String.intercalate "\n" (failuresOf rs))
  | [v] => .ok v
  | _ => .err ("Ambiguous parse of " ++ dumps j ++ ": " ++ mapObjectRepr)

/-- First binding of a keyword argument. -/
def lookupArg (args : List (String × Value)) (f : String) : Option Value :=
  match args with
  | [] => none
  | (k, v) :: tl => if f = k then some v else lookupArg tl f

/-- Does the class declare a field of this name? -/
def Fields.hasName : Fields → String → Bool
  | .nil, _ => false
  | .cons k _ _ tl, f => if f = k then true else tl.hasName f

/-- No two declared fields share a name. -/
def distinctNamesB : Fields → Bool
  | .nil => true
  | .cons k _ _ tl => !(tl.hasName k) && distinctNamesB tl

/-- The field-by-field part of pydantic construction: resolve each declared
field from the keyword arguments or its default, collecting one violation
message per missing required field. -/
def mkClsGo (args : List (String × Value)) : Fields → ObjFields × List String
  | .nil => (.fnil, [])
  | .cons fname _ dflt tl =>
    let rest := mkClsGo args tl
    match lookupArg args fname with
    | some v => (.fcons fname v rest.1, rest.2)
    | none =>
      match dflt with
      | some d => (.fcons fname d rest.1, rest.2)
      | none => (rest.1, ("\x27" ++ fname ++ "\x27: Field required") :: rest.2)

/-- Violations for keyword arguments no declared field matches
(model_config extra forbid). -/
def extraViolations (fields : Fields) : List (String × Value) → List String
  | [] => []
  | (k, _) :: tl =>
    if fields.hasName k then extraViolations fields tl
    else ("\x27" ++ k ++ "\x27: Extra inputs are not permitted") :: extraViolations fields tl

/-- pydantic construction cls(**args) for a record class: either the
constructed instance, or the ValidationError rendered as class_parser does,
one message per violation joined by ". ". -/
def mkCls (name : String) (fields : Fields) (args : List (String × Value)) : Res :=
  let go := mkClsGo args fields
  match go.2 ++ extraViolations fields args with
  | [] => .ok (.vobj name go.1)
  | vs => .err (String.intercalate ". " vs)

/- Applying the constructed parser of a type to a JSON value: the decode
phase.  The outer Except layer carries raised exceptions (deferred
unsupported-type construction errors and the uncaught Decimal constructor
error); the inner Result layer carries the expected data-dependent decode
failures.  Each arm mirrors the corresponding parse_* function of json.py
and the field loop of parser_for_class. -/
mutual
def decodeRun : Ty → JSON → ParsingOptions → Except String Res
  | .any, j, _ => .ok (.ok j.toValue)
  | .strT, j, _ =>
    .ok (if j.isInstStr then .ok j.toValue
      else .err ("Expected str but found " ++ j.typeName))
  | .boolT, j, _ =>
    .ok (if j.isInstBool then .ok j.toValue
      else .err ("Expected bool but found " ++ j.typeName))
  | .floatT, j, _ =>
    .ok (if j.isInstFloat then .ok j.toValue
      else .err ("Expected float but found " ++ j.typeName))
  | .intT, j, _ =>
    .ok (if j.isInstInt then .ok j.toValue
      else .err ("Expected int but found " ++ j.typeName))
  | .noneT, j, _ =>
    .ok (if j.isInstNone then .ok .vnone
      else .err ("Expected None but found " ++ j.typeName))
  | .decimalT, j, _ =>
    match j with
    | .jstr s =>
      match decCanon s with
      | some c => .ok (.ok (.vdecimal c))
      | none => .error "decimal.InvalidOperation"
    | _ => .ok (.err ("Expected str but found " ++ j.typeName))
  | .listT e, j, opts =>
    match j with
    | .jarr xs => do
      let r ← listTraverse (construct e) (fun x => decodeRun e x opts) 0 xs
      match r with
      | .err m => .ok (.err m)
      | .ok vs => .ok (.ok (.vlist vs))
    | _ => .ok (.err ("Expected List but found " ++ j.typeName))
  | .setT e, j, opts =>
    match j with
    | .jarr xs => do
      let r ← listTraverse (construct e) (fun x => decodeRun e x opts) 0 xs
      match r with
      | .err m => .ok (.err m)
      | .ok vs => .ok (.ok (.vset (pySet vs)))
    | _ => .ok (.err ("Expected Set but found " ++ j.typeName))
  | .dictT k v, j, opts =>
    match j with
    | .jobj es => do
      let r ← dictTraverse
        (fun x => construct k >>= fun _ => decodeRun k x opts)
        (fun x => construct v >>= fun _ => decodeRun v x opts) es
      match r with
      | .err m => .ok (.err m)
      | .ok entries => .ok (.ok (.vdict entries))
    | _ => .ok (.err ("Expected Dict but found " ++ j.typeName))
  | .unionT args, j, opts => do
    let rs ← decodeBranches args j opts
    .ok (parseOneOf rs j)
  | .clsT name fields, j, opts =>
    match j with
    | .jobj es => do
      let argsR ← decodeFieldsLoop fields es opts
      match argsR with
      | .err e => .ok (.err e)
      | .ok args => .ok (mkCls name fields args)
    | _ =>
      .ok (.err ("Expected dict but found " ++ j.typeName ++
        ", when decoding " ++ name ++ " from value: " ++ dumps j))
  | .unsupported n, _, _ => .error ("No JSON parser available for " ++ n)

def decodeBranches : TyList → JSON → ParsingOptions → Except String (List Res)
  | .nil, _, _ => .ok []
  | .cons a tl, j, opts => do
    let r ← decodeRun a j opts
    let rest ← decodeBranches tl j opts
    .ok (r :: rest)

def decodeFieldsLoop : Fields → JSONEntries → ParsingOptions →
    Except String (Result String (List (String × Value)))
  | .nil, _, _ => .ok (.ok [])
  | .cons fname fty _ tl, es, opts =>
    match lookupEntry fname es with
    | none =>
      if fty.isOptionalT && opts.fill_missing_optionals then do
        let rest ← decodeFieldsLoop tl es opts
        match rest with
        | .err e => .ok (.err e)
        | .ok args => .ok (.ok ((fname, Value.vnone) :: args))
      else decodeFieldsLoop tl es opts
    | some jv => do
      let _ ← construct fty
      let r ← decodeRun fty jv opts
      match r with
      | .err e => .ok (.err ("Parsing field \x27" ++ fname ++ "\x27: " ++ e))
      | .ok v => do
        let rest ← decodeFieldsLoop tl es opts
        match rest with
        | .err e => .ok (.err e)
        | .ok args => .ok (.ok ((fname, v) :: args))
end

/-- try_parse_json: parser_for runs first (construction), then the
constructed parser decodes the data; an exception raised by either phase
escapes through the outer Except layer. -/
def tryParseJson (ty : Ty) (j : JSON) (opts : ParsingOptions) : Except String Res := do
  let _ ← construct ty
  decodeRun ty j opts

/- to_json from json.py: scalars pass through, bool is caught by the
isinstance int check and returned unchanged, Decimal becomes its exact
string, lists and sets become JSON sequences, dicts keep their keys raw
(only string keys are representable here; a non-string key cannot be
represented in the JSON value type and is reported as unconvertible), and a
ToJSON record emits one entry per declared field in declaration order. -/
mutual
def toJson : Value → Except String JSON
  | .vstr s => .ok (.jstr s)
  | .vbool b => .ok (.jbool b)
  | .vint n => .ok (.jint n)
  | .vfloat r => .ok (.jfloat r)
  | .vnone => .ok .jnull
  | .vdecimal s => .ok (.jstr s)
  | .vlist xs => do
    let js ← toJsonList xs
    .ok (.jarr js)
  | .vset xs => do
    let js ← toJsonList xs
    .ok (.jarr js)
  | .vdict es => do
    let js ← toJsonEntries es
    .ok (.jobj js)
  | .vobj _ fs => do
    let js ← toJsonFields fs
    .ok (.jobj js)

def toJsonList : ValueList → Except String JSONList
  | .nil => .ok .nil
  | .cons hd tl => do
    let jh ← toJson hd
    let jtl ← toJsonList tl
    .ok (.cons jh jtl)

def toJsonEntries : ValueEntries → Except String JSONEntries
  | .cnil => .ok .nil
  | .ccons (.vstr k) v tl => do
    let jv ← toJson v
    let jtl ← toJsonEntries tl
    .ok (.cons k jv jtl)
  | .ccons _ _ _ => .error "Cannot convert non-string dict key to JSON"

def toJsonFields : ObjFields → Except String JSONEntries
  | .fnil => .ok .nil
  | .fcons name v tl => do
    let jv ← toJson v
    let jtl ← toJsonFields tl
    .ok (.cons name jv jtl)
end

/-- Types that reject a JSON null and whose encoded values are never null:
the branch types admitted next to NoneType in an optional for the round-trip
fragment. -/
def nonNullable : Ty → Bool
  | .strT => true
  | .boolT => true
  | .intT => true
  | .floatT => true
  | .decimalT => true
  | .listT _ => true
  | .setT _ => true
  | .dictT _ _ => true
  | .clsT _ _ => true
  | _ => false

/-- The keyword-argument list a fully decoded record yields: one binding
per field in declaration order. -/
def ObjFields.pairs : ObjFields → List (String × Value)
  | .fnil => []
  | .fcons n v tl => (n, v) :: tl.pairs

/-- Declared field names and decoded field names agree positionally. -/
def namesAlignedB : Fields → ObjFields → Bool
  | .nil, .fnil => true
  | .cons fn _ _ ftl, .fcons vn _ vtl => fn == vn && namesAlignedB ftl vtl
  | _, _ => false

/-- No later entry reuses the key. -/
def ValueEntries.hasKey : ValueEntries → String → Bool
  | .cnil, _ => false
  | .ccons (.vstr k) _ tl, f => if f = k then true else tl.hasKey f
  | .ccons _ _ tl, f => tl.hasKey f

/-- Every element of the list satisfies the predicate. -/
def allList (p : Value → Bool) : ValueList → Bool
  | .nil => true
  | .cons hd tl => p hd && allList p tl

/-- Every entry has a string key, keys are pairwise distinct, and every
entry value satisfies the predicate. -/
def entriesOk (p : Value → Bool) : ValueEntries → Bool
  | .cnil => true
  | .ccons (.vstr k) v tl => !(tl.hasKey k) && p v && entriesOk p tl
  | .ccons _ _ _ => false

/- The structurally encodable/decodable fragment: a value inhabits a type
shape such that to_json emits it without omissions and the dispatch-table
parser decodes the emission back.  Unions are admitted in their optional
form (a non-nullable branch next to NoneType), dict keys are strings,
set elements and dict keys are distinct, record field names are distinct
and every declared field is present. -/
mutual
def encodes : Ty → Value → Bool
  | .strT, .vstr _ => true
  | .boolT, .vbool _ => true
  | .intT, .vint _ => true
  | .floatT, .vfloat _ => true
  | .noneT, .vnone => true
  | .decimalT, .vdecimal s => decCanon s == some s
  | .listT e, .vlist xs => allList (fun v => encodes e v) xs
  | .setT e, .vset xs => allList (fun v => encodes e v) xs && distinctB xs
  | .dictT .strT vt, .vdict es => entriesOk (fun v => encodes vt v) es
  | .unionT (.cons e (.cons .noneT .nil)), v =>
    nonNullable e && (decide (v = Value.vnone) || encodes e v)
  | .clsT cname cfields, .vobj vname vfs =>
    cname == vname && distinctNamesB cfields && encodesFields cfields vfs
  | _, _ => false

def encodesFields : Fields → ObjFields → Bool
  | .nil, .fnil => true
  | .cons fn ft _ ftl, .fcons vn vv vtl =>
    fn == vn && encodes ft vv && encodesFields ftl vtl
  | _, _ => false
end

/- Type expressions for the reflection resolver of src/common/reflection.py:
a bare generic parameter, or a constructor applied to argument expressions
(a non-parameterized type is a constructor with no arguments). -/
mutual
inductive TyExpr : Type where
  | tvar (n : String)
  | ctor (name : String) (args : TyArgs)
deriving DecidableEq

inductive TyArgs : Type where
  | nil
  | cons (hd : TyExpr) (tl : TyArgs)
deriving DecidableEq
end

/-- The wildcard typing.Any as a type expression. -/
def anyExpr : TyExpr := .ctor "Any" .nil

/-- Lookup in the binding map from parameter names to supplied arguments. -/
def lookupBound (bound : List (String × TyExpr)) (n : String) : Option TyExpr :=
  match bound with
  | [] => none
  | (k, v) :: tl => if n = k then some v else lookupBound tl n

/- concrete_type from reflection.py: a bound parameter resolves via the
binding map, an unbound parameter resolves to the wildcard Any, a type with
no arguments resolves to its origin, and a parameterized type resolves by
traversing its arguments and reapplying the origin. -/
mutual
def concreteType (bound : List (String × TyExpr)) : TyExpr → Result String TyExpr
  | .tvar n =>
    match lookupBound bound n with
    | some t => .ok t
    | none => .ok anyExpr
  | .ctor name args =>
    match args with
    | .nil => .ok (.ctor name .nil)
    | _ =>
      match concreteArgs bound args with
      | .err e => .err e
      | .ok rargs => .ok (.ctor name rargs)

def concreteArgs (bound : List (String × TyExpr)) : TyArgs → Result String TyArgs
  | .nil => .ok .nil
  | .cons hd tl =>
    match concreteType bound hd with
    | .err e => .err e
    | .ok h =>
      match concreteArgs bound tl with
      | .err e => .err e
      | .ok t => .ok (.cons h t)
end

/-- The field loop of concrete_type_hints: each declared field type is
resolved against the binding map; an Err outcome of concrete_type would be
raised as UnboundTypeVar, modelled by the Except error channel. -/
def concreteTypeHints (bound : List (String × TyExpr)) :
    List (String × TyExpr) → Except String (List (String × TyExpr))
  | [] => .ok []
  | (name, ty) :: tl =>
    match concreteType bound ty with
    | .err e => .error ("UnboundTypeVar: " ++ e ++ " in field " ++ name)
    | .ok v => do
      let rest ← concreteTypeHints bound tl
      .ok ((name, v) :: rest)

theorem bind_ok_ex {α β : Type} (a : α) (f : α → Except String β) :
    (Except.ok a >>= f) = f a := rfl

theorem bind_error_ex {α β : Type} (e : String) (f : α → Except String β) :
    ((Except.error e : Except String α) >>= f) = Except.error e := rfl

mutual
theorem concreteType_never_err (bound : List (String × TyExpr)) :
    (g : TyExpr) → (concreteType bound g).isOk = true
  | .tvar n => by
    unfold concreteType
    cases lookupBound bound n <;> rfl
  | .ctor name args => by
    unfold concreteType
    cases args with
    | nil => rfl
    | cons hd tl =>
      have h := concreteArgs_never_err bound (.cons hd tl)
      cases hc : concreteArgs bound (.cons hd tl) with
      | err e => rw [hc] at h; exact absurd h (by simp [Result.isOk])
      | ok r => simp [hc, Result.isOk]

theorem concreteArgs_never_err (bound : List (String × TyExpr)) :
    (a : TyArgs) → (concreteArgs bound a).isOk = true
  | .nil => rfl
  | .cons hd tl => by
    unfold concreteArgs
    have h1 := concreteType_never_err bound hd
    have h2 := concreteArgs_never_err bound tl
    cases hc1 : concreteType bound hd with
    | err e => rw [hc1] at h1; exact absurd h1 (by simp [Result.isOk])
    | ok v =>
      cases hc2 : concreteArgs bound tl with
      | err e => rw [hc2] at h2; exact absurd h2 (by simp [Result.isOk])
      | ok w => simp [Result.isOk]
end

theorem concreteTypeHints_never_raises (bound : List (String × TyExpr)) :
    (hints : List (String × TyExpr)) → ∃ out, concreteTypeHints bound hints = Except.ok out
  | [] => ⟨[], rfl⟩
  | (name, ty) :: tl => by
    have h := concreteType_never_err bound ty
    obtain ⟨out, hout⟩ := concreteTypeHints_never_raises bound tl
    unfold concreteTypeHints
    cases hc : concreteType bound ty with
    | err e => rw [hc] at h; exact absurd h (by simp [Result.isOk])
    | ok v => exact ⟨(name, v) :: out, by rw [hout]; rfl⟩

/-- C6: resolution of a generic parameter that is not bound in the binding
map succeeds by resolving to the wildcard Any; concrete_type never returns
Err for any binding map and type expression, and therefore the
unresolvable-generic error branch of concrete_type_hints is unreachable. -/
theorem c6_unbound_generic_resolves_to_any :
    (∀ bound n, concreteType bound (.tvar n) = .ok ((lookupBound bound n).getD anyExpr))
    ∧ (∀ bound g, (concreteType bound g).isOk = true)
    ∧ (∀ bound hints, ∃ out, concreteTypeHints bound hints = Except.ok out) := by
  refine ⟨?_, concreteType_never_err, concreteTypeHints_never_raises⟩
  intro bound n
  unfold concreteType
  cases lookupBound bound n <;> rfl

/-- C2 counterexample: a JSON boolean decoded against the int target type is
not a shape error; it decodes successfully, because a Python bool is an
instance of int.  The claim asserts an error stating expected and found
shapes for this input. -/
theorem c2_bool_against_int_counterexample :
    tryParseJson .intT (.jbool true) ⟨false⟩ = .ok (.ok (.vbool true))
    ∧ tryParseJson .intT (.jbool true) ⟨false⟩ ≠ .ok (.err "Expected int but found bool") :=
  ⟨rfl, fun h => nomatch Except.ok.inj h⟩

/-- C2 (amended): string, bool, float and null decode by an exact
runtime-shape check, with the failure message stating expected and found
shapes; the int decoder accepts exactly the inputs whose runtime shape is
int or bool, because Python booleans are integers at runtime, so a JSON
boolean against int succeeds rather than failing. -/
theorem c2_primitive_shape_checks (j : JSON) (opts : ParsingOptions) :
    tryParseJson .strT j opts =
      .ok (if j.isInstStr then .ok j.toValue else .err ("Expected str but found " ++ j.typeName))
    ∧ tryParseJson .boolT j opts =
      .ok (if j.isInstBool then .ok j.toValue else .err ("Expected bool but found " ++ j.typeName))
    ∧ tryParseJson .floatT j opts =
      .ok (if j.isInstFloat then .ok j.toValue else .err ("Expected float but found " ++ j.typeName))
    ∧ tryParseJson .noneT j opts =
      .ok (if j.isInstNone then .ok .vnone else .err ("Expected None but found " ++ j.typeName))
    ∧ tryParseJson .intT j opts =
      .ok (if j.isInstInt then .ok j.toValue else .err ("Expected int but found " ++ j.typeName))
    ∧ (∀ b : Bool, JSON.isInstInt (.jbool b) = true ∧ JSON.isInstBool (.jint 0) = false) :=
  ⟨rfl, rfl, rfl, rfl, rfl, fun _ => ⟨rfl, rfl⟩⟩

/-- C3 counterexample: for a list whose element type has no dispatch rule,
parser construction succeeds (no fatal configuration error is raised at
construction time), and the constructed decode function raises the
unsupported-type error at decode time when an element is decoded. -/
theorem c3_deferred_construction_counterexample :
    construct (.listT (.unsupported "Foo")) = .ok ()
    ∧ tryParseJson (.listT (.unsupported "Foo")) (.jarr (.cons .jnull .nil)) ⟨false⟩ =
        .error "No JSON parser available for Foo" :=
  ⟨rfl, rfl⟩

/-- C3 (amended): a type matched by no dispatch rule raises the fatal
unsupported-type error at parser-construction time when it is the requested
type itself or a union branch (union branch parsers are built eagerly);
when it occurs as the element type of a list or set, a key or value type of
a dict, or a declared field type of a record, construction succeeds and the
error is raised at decode time, when an element or present field is
actually decoded. -/
theorem c3_unsupported_type_timing :
    (∀ name, construct (.unsupported name) = .error ("No JSON parser available for " ++ name))
    ∧ (∀ name, construct (.unionT (.cons (.unsupported name) (.cons .intT .nil))) =
        .error ("No JSON parser available for " ++ name))
    ∧ (∀ e, construct (.listT e) = .ok () ∧ construct (.setT e) = .ok ())
    ∧ (∀ k v, construct (.dictT k v) = .ok ())
    ∧ (∀ n fs, construct (.clsT n fs) = .ok ())
    ∧ (∀ name opts, tryParseJson (.listT (.unsupported name)) (.jarr (.cons .jnull .nil)) opts =
        .error ("No JSON parser available for " ++ name))
    ∧ (∀ name opts,
        tryParseJson (.clsT "C" (.cons "x" (.unsupported name) none .nil))
          (.jobj (.cons "x" .jnull .nil)) opts =
        .error ("No JSON parser available for " ++ name)) :=
  ⟨fun _ => rfl, fun _ => rfl, fun _ => ⟨rfl, rfl⟩, fun _ _ => rfl, fun _ _ => rfl,
    fun _ _ => rfl, fun _ _ => rfl⟩

/-- C4: the union decoder attempts every branch on the same input; zero
successes aggregates all branch failures into one message and exactly one
success returns that success, as the claim states; but with more than one
successful branch the ambiguous-parse message interpolates the repr of an
unevaluated map object instead of naming the successful interpretations:
decoding 5 against Union(int, Any) yields the message shown, which names no
interpretation. -/
theorem c4_union_ambiguous_message_bug :
    tryParseJson (.unionT (.cons .intT (.cons .any .nil))) (.jint 5) ⟨false⟩ =
      .ok (.err ("Ambiguous parse of 5: " ++ mapObjectRepr))
    ∧ tryParseJson (.unionT (.cons .intT (.cons .strT .nil))) (.jint 5) ⟨false⟩ =
      .ok (.ok (.vint 5))
    ∧ tryParseJson (.unionT (.cons .intT (.cons .strT .nil))) .jnull ⟨false⟩ =
      .ok (.err "No parse.\nExpected int but found NoneType\nExpected str but found NoneType") :=
  ⟨rfl, rfl, rfl⟩

/-- C5: a non-string input against the high-precision decimal type is a
shape Err through the Result channel and a valid literal returns Ok of the
exact decimal, but a JSON string that is not a valid decimal literal makes
the decoder raise (decimal.InvalidOperation escapes from Decimal inside
Result.map), contradicting the claim that expected data-dependent decode
failures are never raised. -/
theorem c5_decimal_raises_on_invalid_literal :
    tryParseJson .decimalT (.jstr "abc") ⟨false⟩ = .error "decimal.InvalidOperation"
    ∧ tryParseJson .decimalT (.jint 3) ⟨false⟩ = .ok (.err "Expected str but found int")
    ∧ tryParseJson .decimalT (.jstr "1.50") ⟨false⟩ = .ok (.ok (.vdecimal "1.50")) :=
  ⟨rfl, rfl, rfl⟩

/-- C9: for every record target type, every non-mapping JSON input is
rejected immediately with an error naming the target type and the observed
runtime shape. -/
theorem c9_class_shape_error (name : String) (fields : Fields) (j : JSON)
    (opts : ParsingOptions) (h : j.isInstDict = false) :
    tryParseJson (.clsT name fields) j opts =
      .ok (.err ("Expected dict but found " ++ j.typeName ++
        ", when decoding " ++ name ++ " from value: " ++ dumps j)) := by
  cases j with
  | jobj es => exact absurd h (by simp [JSON.isInstDict])
  | jstr s => rfl
  | jbool b => rfl
  | jint n => rfl
  | jfloat r => rfl
  | jnull => rfl
  | jarr xs => rfl

/-- C9 witness: decoding the integer 5 against a record type named C. -/
theorem c9_class_shape_error_witness :
    (JSON.jint 5).isInstDict = false
    ∧ tryParseJson (.clsT "C" .nil) (.jint 5) ⟨false⟩ =
      .ok (.err "Expected dict but found int, when decoding C from value: 5") :=
  ⟨rfl, c9_class_shape_error "C" .nil (.jint 5) ⟨false⟩ rfl⟩

/-- C7 counterexample: the field-failure prefix in the code is capitalized
(Parsing field), so decoding [1, "x", 3] in field items of a record with
items declared as a list of int does not return the exact claimed message
with lowercase parsing field. -/
theorem c7_lowercase_prefix_counterexample :
    tryParseJson (.clsT "C" (.cons "items" (.listT .intT) none .nil))
      (.jobj (.cons "items" (.jarr (.cons (.jint 1) (.cons (.jstr "x") (.cons (.jint 3) .nil)))) .nil))
      ⟨false⟩ ≠
    .ok (.err "parsing field \x27items\x27: At index 1: Expected int but found str") := by
  intro h
  have h1 := Except.ok.inj h
  have h2 := Result.err.inj h1
  exact absurd h2 (by decide)

/-- C7 (amended): decoding the mapping with items bound to [1, "x", 3]
against a record with one field items of type list of int returns exactly
the error Parsing field (capitalized, as the code formats it) followed by
At index 1: Expected int but found str; the element index is folded into
the error and the first failing index wins. -/
theorem c7_list_index_breadcrumb :
    tryParseJson (.clsT "C" (.cons "items" (.listT .intT) none .nil))
      (.jobj (.cons "items" (.jarr (.cons (.jint 1) (.cons (.jstr "x") (.cons (.jint 3) .nil)))) .nil))
      ⟨false⟩ =
    .ok (.err "Parsing field \x27items\x27: At index 1: Expected int but found str") := rfl

/-- C8: for a record with a single declared optional field x, decoding the
empty mapping with fill_missing_optionals true binds x to null; with
fill_missing_optionals false an absent field with a declared default is
left unset so the constructor default applies; and an absent required field
yields an Err naming the missing field. -/
theorem c8_missing_field_handling (cname x : String) (t : Ty) (d : Option Value) (dv : Value) :
    tryParseJson (.clsT cname (.cons x (.unionT (.cons t (.cons .noneT .nil))) d .nil))
      (.jobj .nil) ⟨true⟩ = .ok (.ok (.vobj cname (.fcons x .vnone .fnil)))
    ∧ tryParseJson (.clsT cname (.cons x t (some dv) .nil))
      (.jobj .nil) ⟨false⟩ = .ok (.ok (.vobj cname (.fcons x dv .fnil)))
    ∧ tryParseJson (.clsT cname (.cons x t none .nil))
      (.jobj .nil) ⟨false⟩ = .ok (.err ("\x27" ++ x ++ "\x27: Field required")) := by
  refine ⟨?_, ?_, ?_⟩
  · cases t <;>
      simp [tryParseJson, construct, decodeRun, decodeFieldsLoop, lookupEntry,
        Ty.isOptionalT, TyList.containsNone, mkCls, mkClsGo, extraViolations,
        lookupArg, Fields.hasName, bind_ok_ex]
  · simp [tryParseJson, construct, decodeRun, decodeFieldsLoop, lookupEntry,
      Bool.and_false, mkCls, mkClsGo, extraViolations, lookupArg,
      Fields.hasName, bind_ok_ex]
  · simp [tryParseJson, construct, decodeRun, decodeFieldsLoop, lookupEntry,
      Bool.and_false, mkCls, mkClsGo, extraViolations, lookupArg,
      Fields.hasName, bind_ok_ex, String.intercalate, String.intercalate.go]

theorem decodeFieldsLoop_agree (opts : ParsingOptions) (m1 m2 : JSONEntries) :
    (fs : Fields) → (∀ f, fs.hasName f = true → lookupEntry f m1 = lookupEntry f m2) →
    decodeFieldsLoop fs m1 opts = decodeFieldsLoop fs m2 opts
  | .nil, _ => rfl
  | .cons fname fty dflt tl, hagree => by
    have hname : lookupEntry fname m1 = lookupEntry fname m2 := by
      apply hagree
      show (if fname = fname then true else tl.hasName fname) = true
      simp
    have htl : ∀ f, tl.hasName f = true → lookupEntry f m1 = lookupEntry f m2 := by
      intro f hf
      apply hagree
      show (if f = fname then true else tl.hasName f) = true
      split
      · rfl
      · exact hf
    have ihtl := decodeFieldsLoop_agree opts m1 m2 tl htl
    show decodeFieldsLoop (.cons fname fty dflt tl) m1 opts =
      decodeFieldsLoop (.cons fname fty dflt tl) m2 opts
    rw [decodeFieldsLoop, decodeFieldsLoop, hname, ihtl]

/-- C10: decoding a JSON mapping against a record type reads only the keys
matching declared field names, so two mappings that agree on every declared
field name decode identically; keys that are not declared fields are
ignored and never reach the constructor. -/
theorem c10_undeclared_keys_ignored (cname : String) (fields : Fields)
    (m1 m2 : JSONEntries) (opts : ParsingOptions)
    (h : ∀ f, fields.hasName f = true → lookupEntry f m1 = lookupEntry f m2) :
    tryParseJson (.clsT cname fields) (.jobj m1) opts =
      tryParseJson (.clsT cname fields) (.jobj m2) opts := by
  show (do
      let _ ← construct (.clsT cname fields)
      decodeRun (.clsT cname fields) (.jobj m1) opts) =
    (do
      let _ ← construct (.clsT cname fields)
      decodeRun (.clsT cname fields) (.jobj m2) opts)
  rw [show decodeRun (.clsT cname fields) (.jobj m1) opts = (do
      let argsR ← decodeFieldsLoop fields m1 opts
      match argsR with
      | .err e => .ok (.err e)
      | .ok args => .ok (mkCls cname fields args)) from rfl,
    show decodeRun (.clsT cname fields) (.jobj m2) opts = (do
      let argsR ← decodeFieldsLoop fields m2 opts
      match argsR with
      | .err e => .ok (.err e)
      | .ok args => .ok (mkCls cname fields args)) from rfl,
    decodeFieldsLoop_agree opts m1 m2 fields h]

/-- C10 witness: a mapping with an extra undeclared key junk decodes
exactly as the mapping without it. -/
theorem c10_undeclared_keys_ignored_witness :
    (∀ f, (Fields.cons "a" Ty.intT none .nil).hasName f = true →
      lookupEntry f (.cons "a" (.jint 1) (.cons "junk" (.jint 2) .nil)) =
        lookupEntry f (.cons "a" (.jint 1) .nil))
    ∧ tryParseJson (.clsT "C" (.cons "a" Ty.intT none .nil))
        (.jobj (.cons "a" (.jint 1) (.cons "junk" (.jint 2) .nil))) ⟨false⟩ =
      tryParseJson (.clsT "C" (.cons "a" Ty.intT none .nil))
        (.jobj (.cons "a" (.jint 1) .nil)) ⟨false⟩ := by
  have hagree : ∀ f, (Fields.cons "a" Ty.intT none .nil).hasName f = true →
      lookupEntry f (.cons "a" (.jint 1) (.cons "junk" (.jint 2) .nil)) =
        lookupEntry f (.cons "a" (.jint 1) .nil) := by
    intro f hf
    have hf2 : (if f = "a" then true else Fields.hasName .nil f) = true := hf
    have : f = "a" := by
      by_cases hc : f = "a"
      · exact hc
      · rw [if_neg hc] at hf2; exact absurd hf2 (by simp [Fields.hasName])
    subst this
    rfl
  exact ⟨hagree, c10_undeclared_keys_ignored "C" (.cons "a" Ty.intT none .nil) _ _ ⟨false⟩ hagree⟩

theorem nonNull_construct (e : Ty) (h : nonNullable e = true) : construct e = .ok () := by
  cases e <;> simp [nonNullable] at h <;> rfl

theorem nonNull_null_err (e : Ty) (h : nonNullable e = true) (opts : ParsingOptions) :
    ∃ m, decodeRun e .jnull opts = .ok (.err m) := by
  cases e <;> simp [nonNullable] at h <;> exact ⟨_, rfl⟩

theorem noneT_err_on_notNull (j : JSON) (h : j ≠ .jnull) (opts : ParsingOptions) :
    ∃ m, decodeRun .noneT j opts = .ok (.err m) := by
  cases j with
  | jnull => exact absurd rfl h
  | jstr s => exact ⟨_, rfl⟩
  | jbool b => exact ⟨_, rfl⟩
  | jint n => exact ⟨_, rfl⟩
  | jfloat r => exact ⟨_, rfl⟩
  | jarr xs => exact ⟨_, rfl⟩
  | jobj es => exact ⟨_, rfl⟩

theorem toJson_ok_null_imp_vnone (v : Value) (h : toJson v = .ok .jnull) : v = .vnone := by
  cases v with
  | vnone => rfl
  | vstr s => exact nomatch (Except.ok.inj h)
  | vbool b => exact nomatch (Except.ok.inj h)
  | vint n => exact nomatch (Except.ok.inj h)
  | vfloat r => exact nomatch (Except.ok.inj h)
  | vdecimal s => exact nomatch (Except.ok.inj h)
  | vlist xs =>
    rw [show toJson (.vlist xs) = (do
        let js ← toJsonList xs
        .ok (.jarr js)) from rfl] at h
    cases hx : toJsonList xs <;> rw [hx] at h
    · exact nomatch h
    · exact nomatch (Except.ok.inj h)
  | vset xs =>
    rw [show toJson (.vset xs) = (do
        let js ← toJsonList xs
        .ok (.jarr js)) from rfl] at h
    cases hx : toJsonList xs <;> rw [hx] at h
    · exact nomatch h
    · exact nomatch (Except.ok.inj h)
  | vdict es =>
    rw [show toJson (.vdict es) = (do
        let js ← toJsonEntries es
        .ok (.jobj js)) from rfl] at h
    cases hx : toJsonEntries es <;> rw [hx] at h
    · exact nomatch h
    · exact nomatch (Except.ok.inj h)
  | vobj n fs =>
    rw [show toJson (.vobj n fs) = (do
        let js ← toJsonFields fs
        .ok (.jobj js)) from rfl] at h
    cases hx : toJsonFields fs <;> rw [hx] at h
    · exact nomatch h
    · exact nomatch (Except.ok.inj h)

theorem encodes_nonNull_ne_vnone (e : Ty) (he : nonNullable e = true)
    (henc : encodes e .vnone = true) : False := by
  cases e with
  | dictT k vt => cases k <;> exact nomatch henc
  | strT => exact nomatch henc
  | boolT => exact nomatch henc
  | intT => exact nomatch henc
  | floatT => exact nomatch henc
  | decimalT => exact nomatch henc
  | listT e2 => exact nomatch henc
  | setT e2 => exact nomatch henc
  | clsT n fs => exact nomatch henc
  | any => exact nomatch he
  | noneT => exact nomatch he
  | unionT args => exact nomatch he
  | unsupported n => exact nomatch he

theorem encodes_toJson_ne_null (e : Ty) (v : Value) (j : JSON)
    (he : nonNullable e = true) (henc : encodes e v = true)
    (hj : toJson v = .ok j) : j ≠ .jnull := by
  intro hnull
  subst hnull
  have hv := toJson_ok_null_imp_vnone v hj
  subst hv
  exact encodes_nonNull_ne_vnone e he henc

theorem hasMember_push : (s : ValueList) → ∀ (x v : Value),
    (s.push x).hasMember v = (s.hasMember v || decide (v = x))
  | .nil, x, v => by
    show (if v = x then true else ValueList.hasMember .nil v) = (false || decide (v = x))
    by_cases h : v = x <;> simp [h, ValueList.hasMember]
  | .cons hd tl, x, v => by
    show (if v = hd then true else (tl.push x).hasMember v) =
      ((if v = hd then true else tl.hasMember v) || decide (v = x))
    by_cases h : v = hd <;> simp [h, hasMember_push tl x v]

theorem memberFree_push (seen : ValueList) (hd : Value) :
    (tl : ValueList) → allList (fun v => !(seen.hasMember v)) tl = true →
    tl.hasMember hd = false →
    allList (fun v => !((seen.push hd).hasMember v)) tl = true
  | .nil, _, _ => rfl
  | .cons a ttl, hfree, hnot => by
    have hfree2 : (!(seen.hasMember a) && allList (fun v => !(seen.hasMember v)) ttl) = true := hfree
    rw [Bool.and_eq_true] at hfree2
    obtain ⟨ha, httl⟩ := hfree2
    have hnot2 : (if hd = a then true else ttl.hasMember hd) = false := hnot
    by_cases hda : hd = a
    · rw [if_pos hda] at hnot2; exact nomatch hnot2
    · rw [if_neg hda] at hnot2
      show (!((seen.push hd).hasMember a) &&
        allList (fun v => !((seen.push hd).hasMember v)) ttl) = true
      rw [Bool.and_eq_true]
      refine ⟨?_, memberFree_push seen hd ttl httl hnot2⟩
      rw [hasMember_push]
      rw [Bool.not_eq_true'] at ha
      have had : ¬(a = hd) := fun hh => hda hh.symm
      simp [ha, had]

theorem pySetGo_id : (xs : ValueList) → (seen : ValueList) →
    distinctB xs = true → allList (fun v => !(seen.hasMember v)) xs = true →
    pySetGo seen xs = xs
  | .nil, _, _, _ => rfl
  | .cons hd tl, seen, hdist, hfree => by
    have hdist2 : (!(tl.hasMember hd) && distinctB tl) = true := hdist
    rw [Bool.and_eq_true] at hdist2
    obtain ⟨hnot, hdtl⟩ := hdist2
    have hfree2 : (!(seen.hasMember hd) && allList (fun v => !(seen.hasMember v)) tl) = true := hfree
    rw [Bool.and_eq_true] at hfree2
    obtain ⟨hhd, htl⟩ := hfree2
    rw [Bool.not_eq_true'] at hhd
    rw [Bool.not_eq_true'] at hnot
    show (if seen.hasMember hd then pySetGo seen tl
      else .cons hd (pySetGo (seen.push hd) tl)) = .cons hd tl
    rw [hhd, if_neg (by simp)]
    rw [pySetGo_id tl (seen.push hd) hdtl (memberFree_push seen hd tl htl hnot)]

theorem allList_nil_free : (xs : ValueList) →
    allList (fun v => !(ValueList.hasMember .nil v)) xs = true
  | .nil => rfl
  | .cons _ tl => allList_nil_free tl

theorem pySet_id (xs : ValueList) (h : distinctB xs = true) : pySet xs = xs :=
  pySetGo_id xs .nil h (allList_nil_free xs)

theorem hasName_cons_of_tl (fname : String) (fty : Ty) (dflt : Option Value) (tl : Fields)
    (f : String) (hf : tl.hasName f = true) : (Fields.cons fname fty dflt tl).hasName f = true := by
  show (if f = fname then true else tl.hasName f) = true
  split
  · rfl
  · exact hf

theorem hasName_self (fname : String) (fty : Ty) (dflt : Option Value) (tl : Fields) :
    (Fields.cons fname fty dflt tl).hasName fname = true := by
  show (if fname = fname then true else tl.hasName fname) = true
  rw [if_pos rfl]

theorem encodesFields_aligned : (fs : Fields) → (vfs : ObjFields) →
    encodesFields fs vfs = true → namesAlignedB fs vfs = true
  | .nil, .fnil, _ => rfl
  | .nil, .fcons _ _ _, h => nomatch h
  | .cons _ _ _ _, .fnil, h => nomatch h
  | .cons fn ft d ftl, .fcons vn vv vtl, h => by
    have h2 : ((fn == vn && encodes ft vv) && encodesFields ftl vtl) = true := h
    rw [Bool.and_eq_true, Bool.and_eq_true] at h2
    obtain ⟨⟨hn, _⟩, htl⟩ := h2
    show (fn == vn && namesAlignedB ftl vtl) = true
    rw [Bool.and_eq_true]
    exact ⟨hn, encodesFields_aligned ftl vtl htl⟩

theorem mkClsGo_skip (k : String) (v : Value) (args : List (String × Value)) :
    (fs : Fields) → fs.hasName k = false → mkClsGo ((k, v) :: args) fs = mkClsGo args fs
  | .nil, _ => rfl
  | .cons fname fty dflt tl, h => by
    have h2 : (if k = fname then true else tl.hasName k) = false := h
    by_cases hk : k = fname
    · rw [if_pos hk] at h2; exact nomatch h2
    · rw [if_neg hk] at h2
      have hlk : lookupArg ((k, v) :: args) fname = lookupArg args fname := by
        show (if fname = k then some v else lookupArg args fname) = lookupArg args fname
        rw [if_neg (fun hh => hk hh.symm)]
      have hrest := mkClsGo_skip k v args tl h2
      simp only [mkClsGo, hlk, hrest]

theorem extraViolations_grow (fn : String) (ft : Ty) (d : Option Value) (ftl : Fields) :
    (args : List (String × Value)) → extraViolations ftl args = [] →
    extraViolations (.cons fn ft d ftl) args = []
  | [], _ => rfl
  | (k, v) :: tl, h => by
    have h2 : (if ftl.hasName k = true then extraViolations ftl tl
      else ("\x27" ++ k ++ "\x27: Extra inputs are not permitted") :: extraViolations ftl tl) = [] := h
    by_cases hk : ftl.hasName k = true
    · rw [if_pos hk] at h2
      show (if (Fields.cons fn ft d ftl).hasName k = true
        then extraViolations (.cons fn ft d ftl) tl
        else ("\x27" ++ k ++ "\x27: Extra inputs are not permitted") ::
          extraViolations (.cons fn ft d ftl) tl) = []
      rw [if_pos (hasName_cons_of_tl fn ft d ftl k hk)]
      exact extraViolations_grow fn ft d ftl tl h2
    · rw [if_neg hk] at h2
      exact nomatch h2

theorem mkClsGo_aligned : (fs : Fields) → (vfs : ObjFields) →
    distinctNamesB fs = true → namesAlignedB fs vfs = true →
    mkClsGo vfs.pairs fs = (vfs, [])
  | .nil, .fnil, _, _ => rfl
  | .nil, .fcons _ _ _, _, ha => nomatch ha
  | .cons _ _ _ _, .fnil, _, ha => nomatch ha
  | .cons fn ft d ftl, .fcons vn vv vtl, hd, ha => by
    have ha2 : (fn == vn && namesAlignedB ftl vtl) = true := ha
    rw [Bool.and_eq_true] at ha2
    obtain ⟨hn, hatl⟩ := ha2
    have hd2 : (!(ftl.hasName fn) && distinctNamesB ftl) = true := hd
    rw [Bool.and_eq_true, Bool.not_eq_true'] at hd2
    obtain ⟨hnotin, hdtl⟩ := hd2
    have hfe : fn = vn := eq_of_beq hn
    subst hfe
    show mkClsGo ((fn, vv) :: vtl.pairs) (.cons fn ft d ftl) = (.fcons fn vv vtl, [])
    have hrest : mkClsGo ((fn, vv) :: vtl.pairs) ftl = mkClsGo vtl.pairs ftl :=
      mkClsGo_skip fn vv vtl.pairs ftl hnotin
    have hih : mkClsGo vtl.pairs ftl = (vtl, []) := mkClsGo_aligned ftl vtl hdtl hatl
    have hlk : lookupArg ((fn, vv) :: vtl.pairs) fn = some vv := by
      show (if fn = fn then some vv else lookupArg vtl.pairs fn) = some vv
      rw [if_pos rfl]
    simp only [mkClsGo, hlk, hrest, hih]

theorem extraViolations_aligned : (fs : Fields) → (vfs : ObjFields) →
    namesAlignedB fs vfs = true → extraViolations fs vfs.pairs = []
  | .nil, .fnil, _ => rfl
  | .nil, .fcons _ _ _, ha => nomatch ha
  | .cons _ _ _ _, .fnil, ha => nomatch ha
  | .cons fn ft d ftl, .fcons vn vv vtl, ha => by
    have ha2 : (fn == vn && namesAlignedB ftl vtl) = true := ha
    rw [Bool.and_eq_true] at ha2
    obtain ⟨hn, hatl⟩ := ha2
    have hfe : fn = vn := eq_of_beq hn
    subst hfe
    show (if (Fields.cons fn ft d ftl).hasName fn = true
      then extraViolations (.cons fn ft d ftl) vtl.pairs
      else ("\x27" ++ fn ++ "\x27: Extra inputs are not permitted") ::
        extraViolations (.cons fn ft d ftl) vtl.pairs) = []
    rw [if_pos (hasName_self fn ft d ftl)]
    exact extraViolations_grow fn ft d ftl vtl.pairs
      (extraViolations_aligned ftl vtl hatl)

theorem mkCls_aligned (name : String) (fs : Fields) (vfs : ObjFields)
    (hd : distinctNamesB fs = true) (ha : namesAlignedB fs vfs = true) :
    mkCls name fs vfs.pairs = .ok (.vobj name vfs) := by
  unfold mkCls
  rw [mkClsGo_aligned fs vfs hd ha, extraViolations_aligned fs vfs ha]
  rfl

mutual
theorem rtMain : (t : Ty) → (v : Value) → encodes t v = true →
    construct t = .ok () ∧ ∃ j, toJson v = .ok j ∧ decodeRun t j ⟨false⟩ = .ok (.ok v)
  | .any, v, henc => by
    cases v <;> exact nomatch henc
  | .strT, v, henc => by
    cases v
    case vstr s => exact ⟨rfl, .jstr s, rfl, rfl⟩
    all_goals exact nomatch henc
  | .boolT, v, henc => by
    cases v
    case vbool b => exact ⟨rfl, .jbool b, rfl, rfl⟩
    all_goals exact nomatch henc
  | .intT, v, henc => by
    cases v
    case vint n => exact ⟨rfl, .jint n, rfl, rfl⟩
    all_goals exact nomatch henc
  | .floatT, v, henc => by
    cases v
    case vfloat r => exact ⟨rfl, .jfloat r, rfl, rfl⟩
    all_goals exact nomatch henc
  | .noneT, v, henc => by
    cases v
    case vnone => exact ⟨rfl, .jnull, rfl, rfl⟩
    all_goals exact nomatch henc
  | .decimalT, v, henc => by
    cases v
    case vdecimal s =>
      have hb : (decCanon s == some s) = true := henc
      have heq : decCanon s = some s := eq_of_beq hb
      refine ⟨rfl, .jstr s, rfl, ?_⟩
      rw [show decodeRun .decimalT (.jstr s) ⟨false⟩ = (match decCanon s with
        | some c => Except.ok (Result.ok (Value.vdecimal c))
        | none => Except.error "decimal.InvalidOperation") from rfl, heq]
    all_goals exact nomatch henc
  | .listT e, v, henc => by
    cases v
    case vlist xs =>
      have ha : allList (fun w => encodes e w) xs = true := henc
      obtain ⟨js, hjs, htrav⟩ := rtList e xs ha
      refine ⟨rfl, .jarr js, ?_, ?_⟩
      · show (do
            let a ← toJsonList xs
            Except.ok (JSON.jarr a)) = Except.ok (JSON.jarr js)
        rw [hjs]
        rfl
      · simp only [decodeRun]
        rw [htrav 0]
        rfl
    all_goals exact nomatch henc
  | .setT e, v, henc => by
    cases v
    case vset xs =>
      have h2 : (allList (fun w => encodes e w) xs && distinctB xs) = true := henc
      rw [Bool.and_eq_true] at h2
      obtain ⟨ha, hdist⟩ := h2
      obtain ⟨js, hjs, htrav⟩ := rtList e xs ha
      refine ⟨rfl, .jarr js, ?_, ?_⟩
      · show (do
            let a ← toJsonList xs
            Except.ok (JSON.jarr a)) = Except.ok (JSON.jarr js)
        rw [hjs]
        rfl
      · simp only [decodeRun]
        rw [htrav 0]
        simp only [bind_ok_ex]
        rw [pySet_id xs hdist]
    all_goals exact nomatch henc
  | .dictT k vt, v, henc => by
    cases k
    case strT =>
      cases v
      case vdict es =>
        have he : entriesOk (fun w => encodes vt w) es = true := henc
        obtain ⟨js, hjs, hdict⟩ := rtEntries vt es he
        refine ⟨rfl, .jobj js, ?_, ?_⟩
        · show (do
              let a ← toJsonEntries es
              Except.ok (JSON.jobj a)) = Except.ok (JSON.jobj js)
          rw [hjs]
          rfl
        · have hdict2 := hdict
          simp only [decodeRun] at hdict2
          simp only [decodeRun]
          rw [hdict2]
          rfl
      all_goals exact nomatch henc
    all_goals (cases v <;> exact nomatch henc)
  | .unionT args, v, henc => by
    cases args
    case nil => cases v <;> exact nomatch henc
    case cons e tl =>
      cases tl
      case nil => cases v <;> exact nomatch henc
      case cons t2 tl2 =>
        cases tl2
        case cons t3 tl3 => cases t2 <;> cases v <;> exact nomatch henc
        case nil =>
          cases t2
          case noneT =>
            have h2 : (nonNullable e && (decide (v = Value.vnone) || encodes e v)) = true := henc
            rw [Bool.and_eq_true, Bool.or_eq_true] at h2
            obtain ⟨hnn, hor⟩ := h2
            constructor
            · show (do
                  let _ ← construct e
                  constructBranches (.cons .noneT .nil)) = Except.ok ()
              rw [nonNull_construct e hnn]
              rfl
            · cases hor with
              | inl hvn =>
                have hv : v = .vnone := of_decide_eq_true hvn
                subst hv
                refine ⟨.jnull, rfl, ?_⟩
                obtain ⟨m, hm⟩ := nonNull_null_err e hnn ⟨false⟩
                show (do
                    let rs ← decodeBranches (.cons e (.cons .noneT .nil)) .jnull ⟨false⟩
                    Except.ok (parseOneOf rs .jnull)) = Except.ok (.ok .vnone)
                rw [show decodeBranches (.cons e (.cons .noneT .nil)) .jnull ⟨false⟩ = (do
                    let r ← decodeRun e .jnull ⟨false⟩
                    let rest ← decodeBranches (.cons .noneT .nil) .jnull ⟨false⟩
                    Except.ok (r :: rest)) from rfl, hm]
                rfl
              | inr henc2 =>
                obtain ⟨hce, j, hj, hdec⟩ := rtMain e v henc2
                refine ⟨j, hj, ?_⟩
                have hjne := encodes_toJson_ne_null e v j hnn henc2 hj
                obtain ⟨m2, hm2⟩ := noneT_err_on_notNull j hjne ⟨false⟩
                show (do
                    let rs ← decodeBranches (.cons e (.cons .noneT .nil)) j ⟨false⟩
                    Except.ok (parseOneOf rs j)) = Except.ok (.ok v)
                rw [show decodeBranches (.cons e (.cons .noneT .nil)) j ⟨false⟩ = (do
                    let r ← decodeRun e j ⟨false⟩
                    let rest ← decodeBranches (.cons .noneT .nil) j ⟨false⟩
                    Except.ok (r :: rest)) from rfl,
                  show decodeBranches (.cons .noneT .nil) j ⟨false⟩ = (do
                    let r2 ← decodeRun .noneT j ⟨false⟩
                    let rest2 ← decodeBranches .nil j ⟨false⟩
                    Except.ok (r2 :: rest2)) from rfl,
                  hdec, hm2]
                rfl
          all_goals (cases v <;> exact nomatch henc)
  | .clsT cname cfields, v, henc => by
    cases v
    case vobj vname vfs =>
      have h2 : ((cname == vname && distinctNamesB cfields) && encodesFields cfields vfs) = true := henc
      rw [Bool.and_eq_true, Bool.and_eq_true] at h2
      obtain ⟨⟨hbeq, hdn⟩, hef⟩ := h2
      have hname : cname = vname := eq_of_beq hbeq
      subst hname
      obtain ⟨js, hjs, hloop⟩ := rtFields cfields vfs hdn hef
      refine ⟨rfl, .jobj js, ?_, ?_⟩
      · show (do
            let a ← toJsonFields vfs
            Except.ok (JSON.jobj a)) = Except.ok (JSON.jobj js)
        rw [hjs]
        rfl
      · simp only [decodeRun]
        rw [hloop js (fun f hf => rfl)]
        simp only [bind_ok_ex]
        rw [mkCls_aligned cname cfields vfs hdn (encodesFields_aligned cfields vfs hef)]
    all_goals exact nomatch henc
  | .unsupported n, v, henc => by
    cases v <;> exact nomatch henc

theorem rtList : (e : Ty) → (xs : ValueList) →
    allList (fun w => encodes e w) xs = true →
    ∃ js, toJsonList xs = .ok js ∧
      ∀ i, listTraverse (construct e) (fun x => decodeRun e x ⟨false⟩) i js = .ok (.ok xs)
  | _, .nil, _ => ⟨.nil, rfl, fun _ => rfl⟩
  | e, .cons hd tl, henc => by
    have h2 : (encodes e hd && allList (fun w => encodes e w) tl) = true := henc
    rw [Bool.and_eq_true] at h2
    obtain ⟨h1, hrest⟩ := h2
    obtain ⟨hce, jh, hjh, hdh⟩ := rtMain e hd h1
    obtain ⟨js, hjs, htrav⟩ := rtList e tl hrest
    refine ⟨.cons jh js, ?_, ?_⟩
    · show (do
          let a ← toJson hd
          let b ← toJsonList tl
          Except.ok (JSONList.cons a b)) = Except.ok (.cons jh js)
      rw [hjh, hjs]
      rfl
    · intro i
      have htrav2 := htrav (i + 1)
      rw [hce] at htrav2
      rw [listTraverse.eq_def, hce]
      simp only [hdh, htrav2, bind_ok_ex]

theorem rtEntries : (vt : Ty) → (es : ValueEntries) →
    entriesOk (fun w => encodes vt w) es = true →
    ∃ js, toJsonEntries es = .ok js ∧
      dictTraverse (fun x => construct .strT >>= fun _ => decodeRun .strT x ⟨false⟩)
        (fun x => construct vt >>= fun _ => decodeRun vt x ⟨false⟩) js = .ok (.ok es)
  | _, .cnil, _ => ⟨.nil, rfl, rfl⟩
  | vt, .ccons kv v tl, henc => by
    cases kv
    case vstr s =>
      have h2 : ((!(tl.hasKey s) && encodes vt v) && entriesOk (fun w => encodes vt w) tl) = true := henc
      rw [Bool.and_eq_true, Bool.and_eq_true] at h2
      obtain ⟨⟨_, hv⟩, htl⟩ := h2
      obtain ⟨hcv, jv, hjv, hdv⟩ := rtMain vt v hv
      obtain ⟨js, hjs, hdict⟩ := rtEntries vt tl htl
      refine ⟨.cons s jv js, ?_, ?_⟩
      · show (do
            let a ← toJson v
            let b ← toJsonEntries tl
            Except.ok (JSONEntries.cons s a b)) = Except.ok (.cons s jv js)
        rw [hjv, hjs]
        rfl
      · have hks : (construct Ty.strT >>= fun _ =>
            decodeRun Ty.strT (JSON.jstr s) (⟨false⟩ : ParsingOptions)) =
            Except.ok (Result.ok (Value.vstr s)) := rfl
        have hvv : (construct vt >>= fun _ =>
            decodeRun vt jv (⟨false⟩ : ParsingOptions)) = Except.ok (Result.ok v) := by
          rw [hcv]
          exact hdv
        rw [dictTraverse.eq_def]
        simp only [hks, hvv, hdict, bind_ok_ex]
    all_goals exact nomatch henc

theorem rtFields : (fs : Fields) → (vfs : ObjFields) →
    distinctNamesB fs = true → encodesFields fs vfs = true →
    ∃ js, toJsonFields vfs = .ok js ∧
      ∀ es, (∀ f, fs.hasName f = true → lookupEntry f es = lookupEntry f js) →
        decodeFieldsLoop fs es ⟨false⟩ = .ok (.ok vfs.pairs)
  | .nil, .fnil, _, _ => ⟨.nil, rfl, fun _ _ => rfl⟩
  | .nil, .fcons _ _ _, _, hef => nomatch hef
  | .cons _ _ _ _, .fnil, _, hef => nomatch hef
  | .cons fn ft d ftl, .fcons vn vv vtl, hdn, hef => by
    have h2 : ((fn == vn && encodes ft vv) && encodesFields ftl vtl) = true := hef
    rw [Bool.and_eq_true, Bool.and_eq_true] at h2
    obtain ⟨⟨hn, hv⟩, hftl⟩ := h2
    have hd2 : (!(ftl.hasName fn) && distinctNamesB ftl) = true := hdn
    rw [Bool.and_eq_true, Bool.not_eq_true'] at hd2
    obtain ⟨hnotin, hdtl⟩ := hd2
    have hfv : fn = vn := eq_of_beq hn
    subst hfv
    obtain ⟨hcf, jv, hjv, hdv⟩ := rtMain ft vv hv
    obtain ⟨js, hjs, hloop⟩ := rtFields ftl vtl hdtl hftl
    refine ⟨.cons fn jv js, ?_, ?_⟩
    · show (do
          let a ← toJson vv
          let b ← toJsonFields vtl
          Except.ok (JSONEntries.cons fn a b)) = Except.ok (.cons fn jv js)
      rw [hjv, hjs]
      rfl
    · intro es hagree
      have hlk : lookupEntry fn es = some jv := by
        rw [hagree fn (hasName_self fn ft d ftl)]
        show (if fn = fn then some jv else lookupEntry fn js) = some jv
        rw [if_pos rfl]
      have hagree2 : ∀ f, ftl.hasName f = true → lookupEntry f es = lookupEntry f js := by
        intro f hf
        rw [hagree f (hasName_cons_of_tl fn ft d ftl f hf)]
        have hfn : ¬(f = fn) := by
          intro hh
          subst hh
          rw [hf] at hnotin
          exact nomatch hnotin
        show (if f = fn then some jv else lookupEntry f js) = lookupEntry f js
        rw [if_neg hfn]
      have hrest := hloop es hagree2
      rw [decodeFieldsLoop, hlk]
      simp only [hcf, hdv, hrest, bind_ok_ex]
      rfl
end

/-- C1: for every value of the structurally encodable/decodable fragment,
decoding the result of encoding it, with fill_missing_optionals false,
returns Ok of a value equal field by field (here: equal) to the original. -/
theorem c1_round_trip (t : Ty) (v : Value) (h : encodes t v = true) :
    (do
      let j ← toJson v
      tryParseJson t j ⟨false⟩) = Except.ok (Result.ok v) := by
  obtain ⟨hc, j, hj, hd⟩ := rtMain t v h
  rw [hj]
  show (do
      let _ ← construct t
      decodeRun t j ⟨false⟩) = Except.ok (Result.ok v)
  rw [hc]
  exact hd

/-- C1 witness: a record with an int field, a decimal field, an optional
string field left null, a set of strings and a nested record round trips. -/
theorem c1_round_trip_witness :
    encodes
      (.clsT "P" (.cons "x" .intT none (.cons "d" .decimalT none
        (.cons "tag" (.unionT (.cons .strT (.cons .noneT .nil))) none
        (.cons "tags" (.setT .strT) none
        (.cons "sub" (.clsT "Q" (.cons "y" .boolT none .nil)) none .nil))))))
      (.vobj "P" (.fcons "x" (.vint 7) (.fcons "d" (.vdecimal "1.50")
        (.fcons "tag" .vnone
        (.fcons "tags" (.vset (.cons (.vstr "a") (.cons (.vstr "b") .nil)))
        (.fcons "sub" (.vobj "Q" (.fcons "y" (.vbool true) .fnil)) .fnil)))))) = true
    ∧ (do
        let j ← toJson (Value.vobj "P" (.fcons "x" (.vint 7) (.fcons "d" (.vdecimal "1.50")
          (.fcons "tag" .vnone
          (.fcons "tags" (.vset (.cons (.vstr "a") (.cons (.vstr "b") .nil)))
          (.fcons "sub" (.vobj "Q" (.fcons "y" (.vbool true) .fnil)) .fnil))))))
        tryParseJson
          (.clsT "P" (.cons "x" .intT none (.cons "d" .decimalT none
            (.cons "tag" (.unionT (.cons .strT (.cons .noneT .nil))) none
            (.cons "tags" (.setT .strT) none
            (.cons "sub" (.clsT "Q" (.cons "y" .boolT none .nil)) none .nil))))))
          j ⟨false⟩) =
      Except.ok (Result.ok (Value.vobj "P" (.fcons "x" (.vint 7) (.fcons "d" (.vdecimal "1.50")
        (.fcons "tag" .vnone
        (.fcons "tags" (.vset (.cons (.vstr "a") (.cons (.vstr "b") .nil)))
        (.fcons "sub" (.vobj "Q" (.fcons "y" (.vbool true) .fnil)) .fnil))))))) := by
  constructor
  · rfl
  · exact c1_round_trip _ _ rfl

end CG
